import Mathlib

/-!
Verification development for the import reconciliation engine of the
django-import-export fork (src/import_export/admin.py and collaborators).

The Lean definitions below are a shallow embedding of the Python source:
tablib datasets become header/row lists, the admin mixin methods become
pure functions, and the hashlib.sha1 digest used by
GenericImportMixin.header_hash is implemented bit-for-bit over Nat.
Components of the repository that are referenced by admin.py but whose
files are not part of src/ (resources.Resource.import_data,
results.Result/RowResult, tmp_storages) are modelled from the
specification, as marked in their doc comments.
-/

namespace ImportExport

/-- 32-bit truncation. -/
def w32 (x : Nat) : Nat := x % 4294967296

/-- 32-bit left rotation. -/
def rotl (n x : Nat) : Nat := ((x <<< n) ||| (x >>> (32 - n))) % 4294967296

/-- UTF-8 encoding of a single code point. -/
def utf8Bytes (c : Nat) : List Nat :=
  if c < 128 then [c]
  else if c < 2048 then [192 ||| (c >>> 6), 128 ||| (c &&& 63)]
  else if c < 65536 then
    [224 ||| (c >>> 12), 128 ||| ((c >>> 6) &&& 63), 128 ||| (c &&& 63)]
  else
    [240 ||| (c >>> 18), 128 ||| ((c >>> 12) &&& 63),
     128 ||| ((c >>> 6) &&& 63), 128 ||| (c &&& 63)]

/-- The UTF-8 byte sequence of a string, as natural numbers (Python 2
`str` bytes of the joined header string). -/
def strBytes (s : String) : List Nat := s.data.flatMap (fun ch => utf8Bytes ch.toNat)

/-- SHA-1 message padding: append 0x80, zero bytes, and the 64-bit big-endian
bit length so the total length is a multiple of 64 bytes. -/
def sha1pad (msg : List Nat) : List Nat :=
  let len := msg.length
  let k := (119 - len % 64) % 64
  msg ++ [128] ++ List.replicate k 0 ++
    (List.range 8).map (fun i => ((len * 8) >>> ((7 - i) * 8)) % 256)

/-- Split a byte list into 64-byte blocks, fuelled for kernel reduction. -/
def chunksAux : Nat → List Nat → List (List Nat)
  | 0, _ => []
  | _, [] => []
  | fuel + 1, a :: l => (a :: l).take 64 :: chunksAux fuel ((a :: l).drop 64)

/-- Split a byte list into 64-byte blocks. -/
def chunks64 (l : List Nat) : List (List Nat) := chunksAux l.length l

/-- Big-endian 32-bit words from bytes. -/
def toWords : List Nat → List Nat
  | a :: b :: c :: d :: rest => (((a * 256 + b) * 256 + c) * 256 + d) :: toWords rest
  | _ => []

/-- SHA-1 message schedule: extend 16 words to 80. -/
def sha1extend (ws : Array Nat) : Array Nat :=
  (List.range 64).foldl (fun w j =>
    w.push (rotl 1 ((w.get! (j + 13)) ^^^ (w.get! (j + 8)) ^^^ (w.get! (j + 2)) ^^^ (w.get! j)))) ws

/-- SHA-1 round function. -/
def sha1f (t b c d : Nat) : Nat :=
  if t < 20 then (b &&& c) ||| ((b ^^^ 4294967295) &&& d)
  else if t < 40 then b ^^^ c ^^^ d
  else if t < 60 then (b &&& c) ||| (b &&& d) ||| (c &&& d)
  else b ^^^ c ^^^ d

/-- SHA-1 round constants. -/
def sha1k (t : Nat) : Nat :=
  if t < 20 then 1518500249
  else if t < 40 then 1859775393
  else if t < 60 then 2400959708
  else 3395469782

/-- SHA-1 compression of one 64-byte block. -/
def sha1block (h : Nat × Nat × Nat × Nat × Nat) (block : List Nat) :
    Nat × Nat × Nat × Nat × Nat :=
  let ws := sha1extend (Array.mk (toWords block))
  let r := (List.range 80).foldl (fun st t =>
    let (a, b, c, d, e) := st
    (w32 (rotl 5 a + sha1f t b c d + e + sha1k t + ws.get! t), a, rotl 30 b, c, d)) h
  let (h0, h1, h2, h3, h4) := h
  let (a, b, c, d, e) := r
  (w32 (h0 + a), w32 (h1 + b), w32 (h2 + c), w32 (h3 + d), w32 (h4 + e))

/-- One hexadecimal digit. -/
def hexChar (n : Nat) : Char := if n < 10 then Char.ofNat (48 + n) else Char.ofNat (87 + n)

/-- 8-digit lowercase hex rendering of a 32-bit word. -/
def hex8 (x : Nat) : String :=
  String.mk ((List.range 8).map (fun i => hexChar ((x >>> ((7 - i) * 4)) % 16)))

/-- SHA-1 hex digest of a byte list (hashlib.sha1(...).hexdigest()). -/
def sha1hex (msg : List Nat) : String :=
  let blocks := chunks64 (sha1pad msg)
  let r := blocks.foldl sha1block
    (1732584193, 4023233417, 2562383102, 271733878, 3285377520)
  let (h0, h1, h2, h3, h4) := r
  hex8 h0 ++ hex8 h1 ++ hex8 h2 ++ hex8 h3 ++ hex8 h4

/-- Python `'|'.join(headers)`: headers joined by the pipe delimiter. -/
def joinPipe : List String → String
  | [] => ""
  | [h] => h
  | h :: t => h ++ "|" ++ joinPipe t

/-- GenericImportMixin.header_hash: sha1 hex digest of the headers joined
by the pipe delimiter, in the order given (admin.py lines 284-286). -/
def header_hash (headers : List String) : String := sha1hex (strBytes (joinPipe headers))

/-- GenericImportMixin.get_predefined_field_rules_json_map: each predefined
rule (a list of (display header, field id) pairs) is registered under the
header_hash of its headers, in the order they appear in the rule
(admin.py lines 298-310).  The JSON serialization of the rule body is kept
as the rule itself, serialization being an external concern. -/
def get_predefined_field_rules (rules : List (List (String × String))) :
    List (String × List (String × String)) :=
  rules.map (fun rule => (header_hash (rule.map Prod.fst), rule))

/-- A tablib dataset: ordered column headers plus rows of cells aligned
positionally with the headers. -/
structure Dataset where
  headers : List String
  rows : List (List String)
deriving DecidableEq, Repr

/-- tablib `del dataset[header]`: remove the column at the first position
whose header equals `h`, both from the headers and from every row. -/
def delCol (d : Dataset) (h : String) : Dataset :=
  match d.headers.findIdx? (fun x => x == h) with
  | none => d
  | some i => ⟨d.headers.eraseIdx i, d.rows.map (fun r => r.eraseIdx i)⟩

/-- tablib `insert_col(0, lambda row: '', header=h)`: a new first column
with header `h` whose every cell is the empty string. -/
def insert_col0 (d : Dataset) (h : String) : Dataset :=
  ⟨h :: d.headers, d.rows.map (fun r => "" :: r)⟩

/-- A header is kept by convert_dataset_by_rule iff it is a key of the
rule or a known resource field id. -/
def keepHeader (fields : List String) (rule : List (String × String)) (h : String) : Bool :=
  (List.lookup h rule).isSome || fields.contains h

/-- The header a kept column ends up with: the rule target if the header
is a rule key, the header itself if it is a field id, nothing otherwise. -/
def targetHeader (fields : List String) (rule : List (String × String)) (h : String) :
    Option String :=
  match List.lookup h rule with
  | some v => some v
  | none => if fields.contains h then some h else none

/-- GenericImportMixin.convert_dataset_by_rule (admin.py lines 322-348):
delete every column whose header is neither a rule key nor a resource
field, then rewrite the remaining headers through the rule. -/
def convert_dataset_by_rule (fields : List String) (rule : List (String × String))
    (d : Dataset) : Dataset :=
  let deleteHeaders := d.headers.filter (fun h => !keepHeader fields rule h)
  let d1 := deleteHeaders.foldl delCol d
  let newHeaders := d1.headers.filterMap (targetHeader fields rule)
  ⟨newHeaders, d1.rows⟩

/-- Python `set(resource.fields.keys()) ^ set(dataset.headers)` (a symmetric
difference), flattened to a list: fields absent from the headers followed by
headers absent from the fields, without duplicates. -/
def empty_fields (fields headers : List String) : List String :=
  (fields.filter (fun f => !headers.contains f) ++
   headers.filter (fun h => !fields.contains h)).dedup

/-- GenericImportMixin.post_convert_dataset (admin.py lines 350-364):
insert, for every member of the symmetric difference of the declared field
ids and the current headers, a new first column with empty cells. -/
def post_convert_dataset (fields : List String) (d : Dataset) : Dataset :=
  (empty_fields fields d.headers).foldl insert_col0 d

/-- The full field-resolution pipeline of GenericImportMixin.import_action:
convert_dataset_by_rule followed by post_convert_dataset
(pre_convert_dataset is a no-op). -/
def generic_convert (fields : List String) (rule : List (String × String))
    (d : Dataset) : Dataset :=
  post_convert_dataset fields (convert_dataset_by_rule fields rule d)

/-- Modelled from the spec: results.RowResult is not under src/.  Import
types per the spec data model, section 3: NEW, UPDATE, DELETE, SKIP, ERROR. -/
inductive ImportType where
  | new
  | update
  | delete
  | skip
  | error
deriving DecidableEq, Repr

/-- Modelled from the spec: results.RowResult is not under src/.  One
result per dataset row: import type, the resolved record identity, and an
error message when the row could not be processed. -/
structure RowResult where
  importType : ImportType
  objectId : Option String
  errorMsg : Option String
deriving DecidableEq, Repr

/-- Modelled from the spec: results.Result is not under src/.  Ordered row
results plus invalid rows and dataset-level errors. -/
structure Result where
  rows : List RowResult
  invalidRows : List String
  baseErrors : List String
deriving DecidableEq, Repr

/-- Modelled from the spec: Result.has_errors is true iff invalid rows or
dataset errors are non-empty, or any RowResult carries an ERROR type. -/
def Result.has_errors (r : Result) : Bool :=
  !r.invalidRows.isEmpty || !r.baseErrors.isEmpty ||
    r.rows.any (fun rr => rr.importType == ImportType.error)

/-- A stored record: field values keyed by field id. -/
abbrev Rec := List (String × String)

/-- Modelled from the spec: the record storage collaborator, a finite map
from import-key value to record. -/
abbrev Storage := List (String × Rec)

/-- Modelled from the spec: the resource schema as an ordered list of field
ids, the declared import-key field, and an optional delete-marker field. -/
structure Schema where
  fields : List String
  keyField : String
  deleteField : Option String
deriving DecidableEq, Repr

/-- The cell of a row under a given header, positionally. -/
def cellAt (headers row : List String) (f : String) : Option String :=
  (headers.findIdx? (fun x => x == f)).map (fun i => row.getD i "")

/-- Modelled from the spec, section 4.2: extract the import-key value of a
row; fails when the key field is absent from the headers. -/
def extractKey (sch : Schema) (headers row : List String) : Option String :=
  cellAt headers row sch.keyField

/-- A truthy delete-marker cell. -/
def truthyCell (s : String) : Bool :=
  s != "" && s != "0" && s != "false" && s != "False"

/-- Whether the row's delete-marker column is present and truthy. -/
def deleteMarked (sch : Schema) (headers row : List String) : Bool :=
  match sch.deleteField with
  | none => false
  | some df =>
    match cellAt headers row df with
    | none => false
    | some v => truthyCell v

/-- The new field values a row carries, one per declared schema field
(absent columns read as empty). -/
def rowValues (sch : Schema) (headers row : List String) : Rec :=
  sch.fields.map (fun f => (f, (cellAt headers row f).getD ""))

/-- Modelled from the spec, section 4.2: the import type of a row given the
record found (or not) under its import key.  Absent record: NEW unless all
fields are empty, then SKIP.  Present record: DELETE when the delete marker
is truthy, UPDATE when some field differs, SKIP otherwise. -/
def classifyType (sch : Schema) (existing : Option Rec) (headers row : List String) :
    ImportType :=
  match existing with
  | none =>
    if (rowValues sch headers row).all (fun p => p.2 == "") then ImportType.skip
    else ImportType.new
  | some rec =>
    if deleteMarked sch headers row then ImportType.delete
    else if (rowValues sch headers row).any
        (fun p => p.2 != (List.lookup p.1 rec).getD "") then ImportType.update
    else ImportType.skip

/-- Modelled from the spec, section 4.2: the RowResult of a row whose key
was extracted, carrying the import type and the key as the record identity. -/
def classifyWith (sch : Schema) (existing : Option Rec) (headers row : List String)
    (k : String) : RowResult :=
  ⟨classifyType sch existing headers row, some k, none⟩

/-- Modelled from the spec, section 4.2: diff one row against storage.
Key-extraction failure yields an ERROR row result and aborts nothing else. -/
def diff_row (sch : Schema) (st : Storage) (headers row : List String) : RowResult :=
  match extractKey sch headers row with
  | none => ⟨ImportType.error, none, some "key field missing"⟩
  | some k => classifyWith sch (List.lookup k st) headers row k

/-- Modelled from the spec, section 4.3 step 3: apply one classified row
to storage.  SKIP and ERROR rows write nothing. -/
def applyRow (sch : Schema) (st : Storage) (headers row : List String)
    (rr : RowResult) : Storage :=
  match rr.importType, rr.objectId with
  | ImportType.new, some k => (k, rowValues sch headers row) :: st
  | ImportType.update, some k =>
    st.map (fun p => if p.1 == k then (k, rowValues sch headers row) else p)
  | ImportType.delete, some k => st.filter (fun p => p.1 != k)
  | _, _ => st

/-- Modelled from the spec, section 4.3 steps 1-3: classify a row and, in
commit mode only, mutate storage. -/
def process_row (sch : Schema) (st : Storage) (headers row : List String)
    (dryRun : Bool) : RowResult × Storage :=
  let rr := diff_row sch st headers row
  (rr, if dryRun then st else applyRow sch st headers row rr)

/-- Modelled from the spec, section 4.3: one sequential pass over the rows,
threading storage through commit-mode writes. -/
def runRows (sch : Schema) (headers : List String) (dryRun : Bool) :
    Storage → List (List String) → List RowResult × Storage
  | st, [] => ([], st)
  | st, row :: rest =>
    let p := process_row sch st headers row dryRun
    let q := runRows sch headers dryRun p.2 rest
    (p.1 :: q.1, q.2)

/-- Modelled from the spec: resources.Resource.import_data is not under
src/.  The full pass, producing the Result and the final storage. -/
def import_data_run (sch : Schema) (st : Storage) (d : Dataset) (dryRun : Bool) :
    Result × Storage :=
  let p := runRows sch d.headers dryRun st d.rows
  (⟨p.1, [], []⟩, p.2)

/-- Modelled from the spec, section 4.3 step 4: import_data collects all
row errors and, when raise_on_error is set and the result has errors,
reports the whole operation as failed after all rows were attempted. -/
def import_data (sch : Schema) (st : Storage) (d : Dataset)
    (dryRun raiseErrors : Bool) : Except String (Result × Storage) :=
  let p := import_data_run sch st d dryRun
  if raiseErrors && p.1.has_errors then Except.error "import errors"
  else Except.ok p

/-- Modelled from the spec: the tmp_storages blob-store collaborator,
a finite map from handle name to saved bytes plus a fresh-name counter. -/
structure Blobs where
  entries : List (String × List Nat)
  next : Nat
deriving DecidableEq, Repr

/-- The fresh handle name the blob store assigns to the next save. -/
def freshName (b : Blobs) : String := "tmp" ++ toString b.next

/-- Modelled from the spec: blob store save(bytes) giving a fresh handle. -/
def blobSave (b : Blobs) (data : List Nat) : String × Blobs :=
  (freshName b, ⟨(freshName b, data) :: b.entries, b.next + 1⟩)

/-- Modelled from the spec: blob store read(handle). -/
def blobRead (b : Blobs) (h : String) : Option (List Nat) :=
  List.lookup h b.entries

/-- Modelled from the spec: blob store remove(handle). -/
def blobRemove (b : Blobs) (h : String) : Blobs :=
  ⟨b.entries.filter (fun e => e.1 != h), b.next⟩

/-- forms.ConfirmImportForm: the opaque fields round-tripped between the
preview response and the confirm request. -/
structure ConfirmForm where
  import_file_name : String
  original_file_name : String
  input_format : Nat
deriving DecidableEq, Repr

/-- forms.PreImportForm data used by GenericImportMixin.import_action. -/
structure PreForm where
  import_file_name : String
  original_file_name : String
  input_format : Nat
deriving DecidableEq, Repr

/-- The logentry_map of ImportMixin.process_import (admin.py lines 178-182):
defined exactly for the NEW, UPDATE and DELETE import types (Django's
ADDITION, CHANGE, DELETION action flags); a dict lookup at any other key
raises, modelled as none. -/
def logentry_map : ImportType → Option Nat
  | ImportType.new => some 1
  | ImportType.update => some 2
  | ImportType.delete => some 3
  | _ => none

/-- The admin-log action flags process_import computes: SKIP rows are
filtered out, every other row is looked up in logentry_map
(admin.py lines 184-193). -/
def logsOf (res : Result) : List (Option Nat) :=
  (res.rows.filter (fun r => r.importType != ImportType.skip)).map
    (fun r => logentry_map r.importType)

/-- The observable outcome of ImportMixin.import_action: the blob store
after saving the upload, the dry-run result, the confirm form offered to
the user (when the dry run was clean), and the record storage after the
pass. -/
structure PreviewOutcome where
  blobs : Blobs
  result : Result
  confirmForm : Option ConfirmForm
  storage : Storage
deriving DecidableEq, Repr

/-- ImportMixin.import_action (admin.py lines 204-269): save the uploaded
bytes to the blob store, read them back, decode them into a dataset, run
import_data with dry_run=True and raise_errors=False, and offer a
ConfirmImportForm carrying the handle, original filename and format index
exactly when the result has no errors.  The decoder stands for
input_format.create_dataset. -/
def import_action (sch : Schema) (dec : List Nat → Dataset) (st : Storage)
    (b : Blobs) (upload : List Nat) (uploadName : String) (fmt : Nat) :
    PreviewOutcome :=
  let hb := blobSave b upload
  let data := (blobRead hb.2 hb.1).getD []
  let d := dec data
  match import_data sch st d true false with
  | Except.ok rs =>
    ⟨hb.2, rs.1,
     if rs.1.has_errors then none
     else some ⟨hb.1, uploadName, fmt⟩, rs.2⟩
  | Except.error _ => ⟨hb.2, ⟨[], [], []⟩, none, st⟩

/-- The observable outcome of GenericImportMixin.import_action; the result
is absent when reading or decoding the saved upload failed. -/
structure GenericPreviewOutcome where
  blobs : Blobs
  result : Option Result
  confirmForm : Option ConfirmForm
  storage : Storage
deriving DecidableEq, Repr

/-- GenericImportMixin.import_action (admin.py lines 366-435): read the
previously saved upload from the blob store, decode it, run the
field-resolution pipeline (pre_convert_dataset is a no-op, then
convert_dataset_by_rule, then post_convert_dataset), dry-run import_data
with dry_run=True and raise_errors=False, and when the result is clean
save the re-serialized converted dataset under a fresh handle and offer
the ConfirmImportForm for it.  `dec` stands for create_dataset and `enc`
for export_data. -/
def generic_import_action (sch : Schema) (fields : List String)
    (dec : List Nat → Dataset) (enc : Dataset → List Nat)
    (st : Storage) (b : Blobs) (form : PreForm)
    (rule : List (String × String)) : GenericPreviewOutcome :=
  match blobRead b form.import_file_name with
  | none => ⟨b, none, none, st⟩
  | some data =>
    let d2 := generic_convert fields rule (dec data)
    match import_data sch st d2 true false with
    | Except.ok rs =>
      if rs.1.has_errors then ⟨b, some rs.1, none, rs.2⟩
      else
        let hb := blobSave b (enc d2)
        ⟨hb.2, some rs.1,
         some ⟨hb.1, form.original_file_name, form.input_format⟩, rs.2⟩
    | Except.error _ => ⟨b, none, none, st⟩

/-- The observable outcome of ImportMixin.process_import: forbidden when
the confirm form is invalid (not modelled further), failed when
import_data raised, success with the admin-log action flags, the blob
store after removing the handle, and the final record storage. -/
inductive CommitOutcome where
  | failed (msg : String) (blobs : Blobs) (storage : Storage)
  | success (result : Result) (logs : List (Option Nat)) (blobs : Blobs)
      (storage : Storage)
deriving DecidableEq, Repr

/-- ImportMixin.process_import (admin.py lines 151-202): read the bytes
saved under the confirm form's handle, decode them, run import_data with
dry_run=False and raise_errors=True, write one admin log entry per
non-SKIP row via logentry_map, and remove the handle on success.  A raise
from import_data propagates before any logging or removal. -/
def process_import (sch : Schema) (dec : List Nat → Dataset) (st : Storage)
    (b : Blobs) (form : ConfirmForm) : CommitOutcome :=
  match blobRead b form.import_file_name with
  | none => CommitOutcome.failed "missing import file" b st
  | some data =>
    let d := dec data
    match import_data sch st d false true with
    | Except.error e => CommitOutcome.failed e b st
    | Except.ok rs =>
      CommitOutcome.success rs.1 (logsOf rs.1)
        (blobRemove b form.import_file_name) rs.2

set_option maxRecDepth 40000

deriving instance DecidableEq for Except

/-- Splitting at a separator character absent from both prefixes is
unambiguous. -/
theorem append_sep_inj (c : Char) (xs : List Char) :
    ∀ (xs' ys ys' : List Char), c ∉ xs → c ∉ xs' →
      xs ++ c :: ys = xs' ++ c :: ys' → xs = xs' ∧ ys = ys' := by
  induction xs with
  | nil =>
    intro xs' ys ys' _ h2 heq
    cases xs' with
    | nil => simpa using heq
    | cons a t =>
      simp only [List.nil_append, List.cons_append, List.cons.injEq] at heq
      exact absurd (heq.1 ▸ h2) (by simp)
  | cons x xs ih =>
    intro xs' ys ys' h1 h2 heq
    cases xs' with
    | nil =>
      simp only [List.nil_append, List.cons_append, List.cons.injEq] at heq
      exact absurd (heq.1 ▸ h1) (by simp)
    | cons a t =>
      simp only [List.cons_append, List.cons.injEq] at heq
      have hr := ih t ys ys' (fun hm => h1 (List.mem_cons_of_mem x hm))
        (fun hm => h2 (List.mem_cons_of_mem a hm)) heq.2
      exact ⟨by rw [heq.1, hr.1], hr.2⟩

/-- The character data of a pipe-join with at least two components. -/
theorem joinPipe_data_cons (h a : String) (t : List String) :
    (joinPipe (h :: a :: t)).data = h.data ++ '|' :: (joinPipe (a :: t)).data := by
  show ((h ++ "|") ++ joinPipe (a :: t)).data = _
  rw [String.data_append, String.data_append]
  simp

/-- joinPipe is injective on lists of equal length whose members do not
contain the delimiter. -/
theorem joinPipe_inj : ∀ (l1 l2 : List String),
    (∀ s ∈ l1, '|' ∉ s.data) → (∀ s ∈ l2, '|' ∉ s.data) →
    l1.length = l2.length → joinPipe l1 = joinPipe l2 → l1 = l2
  | [], [], _, _, _, _ => rfl
  | [], _ :: _, _, _, hlen, _ => by simp at hlen
  | _ :: _, [], _, _, hlen, _ => by simp at hlen
  | [_], [_], _, _, _, heq => by
    exact congrArg (fun s => [s]) heq
  | [_], _ :: _ :: _, _, _, hlen, _ => by simp at hlen
  | _ :: _ :: _, [_], _, _, hlen, _ => by simp at hlen
  | a :: a2 :: t1, b :: b2 :: t2, hp1, hp2, hlen, heq => by
    have hd := congrArg String.data heq
    rw [joinPipe_data_cons, joinPipe_data_cons] at hd
    have hsplit := append_sep_inj '|' a.data b.data (joinPipe (a2 :: t1)).data
      (joinPipe (b2 :: t2)).data (hp1 a (by simp)) (hp2 b (by simp)) hd
    have h1 : a = b := String.ext hsplit.1
    have h2 : joinPipe (a2 :: t1) = joinPipe (b2 :: t2) := String.ext hsplit.2
    have h3 := joinPipe_inj (a2 :: t1) (b2 :: t2)
      (fun s hs => hp1 s (List.mem_cons_of_mem a hs))
      (fun s hs => hp2 s (List.mem_cons_of_mem b hs))
      (by simpa using hlen) h2
    rw [h1, h3]

/-- import_data never raises when raise_errors is false. -/
theorem import_data_no_raise (sch : Schema) (st : Storage) (d : Dataset)
    (dryRun : Bool) :
    import_data sch st d dryRun false = Except.ok (import_data_run sch st d dryRun) := by
  simp [import_data]

/-- A dry-run pass classifies every row against the initial storage and
leaves storage untouched. -/
theorem runRows_dry (sch : Schema) (headers : List String) :
    ∀ (rows : List (List String)) (st : Storage),
      runRows sch headers true st rows =
        (rows.map (fun row => diff_row sch st headers row), st)
  | [], _ => rfl
  | row :: rest, st => by
    simp [runRows, process_row, runRows_dry sch headers rest st]

/-- Folding empty-column insertions prepends the reversed inserted headers
and pads every row in front with empty cells. -/
theorem foldl_insert_col0 : ∀ (l : List String) (d : Dataset),
    l.foldl insert_col0 d =
      ⟨l.reverse ++ d.headers, d.rows.map (fun r => List.replicate l.length "" ++ r)⟩
  | [], d => by simp
  | h :: t, d => by
    rw [List.foldl_cons, foldl_insert_col0 t (insert_col0 d h)]
    refine congrArg₂ Dataset.mk (by simp [insert_col0]) ?_
    simp only [insert_col0, List.map_map]
    refine List.map_congr_left (fun r _ => ?_)
    simp [List.replicate_succ', List.append_assoc]

/-- When every header is a declared field and the fields are distinct, the
symmetric difference collapses to the declared-but-absent fields. -/
theorem empty_fields_of_sub (fields headers : List String) (hnd : fields.Nodup)
    (hsub : ∀ h ∈ headers, h ∈ fields) :
    empty_fields fields headers = fields.filter (fun f => !headers.contains f) := by
  unfold empty_fields
  have h2 : headers.filter (fun h => !fields.contains h) = [] := by
    rw [List.filter_eq_nil_iff]
    intro a ha
    simpa using hsub a ha
  rw [h2, List.append_nil, List.dedup_eq_self.2 (hnd.filter _)]

/-- C5 counterexample: the rule_hash is not a hash of the sorted headers.
The two predefined rules below have header sequences that are permutations
of each other, yet the Predefined Rule Registry assigns them different
rule_hash keys. -/
theorem c5_counterexample :
    List.Perm ["b", "a"] ["a", "b"] ∧
    (get_predefined_field_rules [[("a", "fa"), ("b", "fb")]]).map Prod.fst ≠
      (get_predefined_field_rules [[("b", "fb"), ("a", "fa")]]).map Prod.fst := by
  constructor
  · decide
  · intro h
    simp only [get_predefined_field_rules, List.map_cons, List.map_nil,
      List.cons.injEq, and_true] at h
    exact absurd h (by decide)

/-- C5 amended: the rule_hash under which a HeaderRule is registered is the
sha1 hex digest of its original headers joined by the pipe delimiter in the
order they are declared (no sorting), so header sequences that are
permutations of each other are in general assigned different rule_hashes. -/
theorem c5_amended :
    (∀ (rules : List (List (String × String))),
      (get_predefined_field_rules rules).map Prod.fst =
        rules.map (fun r => sha1hex (strBytes (joinPipe (r.map Prod.fst))))) ∧
    header_hash ["a", "b"] ≠ header_hash ["b", "a"] := by
  constructor
  · intro rules
    simp [get_predefined_field_rules, header_hash]
  · decide

/-- C6 counterexample: header_hash is not order-sensitive for every header
sequence: the two sequences below consist of the same two distinct headers
in different orders, yet the joined pre-image strings coincide (a header
contains the delimiter), so the digests are identical. -/
theorem c6_counterexample :
    (["a", "a|a"] : List String) ≠ ["a|a", "a"] ∧
    (["a", "a|a"] : List String).Nodup ∧
    List.Perm ["a|a", "a"] ["a", "a|a"] ∧
    header_hash ["a", "a|a"] = header_hash ["a|a", "a"] := by
  refine ⟨by decide, by decide, by decide, ?_⟩
  show sha1hex (strBytes (joinPipe ["a", "a|a"])) =
    sha1hex (strBytes (joinPipe ["a|a", "a"]))
  rw [show joinPipe ["a", "a|a"] = joinPipe ["a|a", "a"] from by decide]

/-- C6 amended: header_hash is deterministic, and it is order-sensitive for
header sequences none of whose headers contains the pipe delimiter:
distinct such sequences of equal length have distinct joined pre-image
strings (so their digests differ unless sha1 itself collides). -/
theorem c6_amended (hs1 hs2 : List String)
    (hp1 : ∀ s ∈ hs1, '|' ∉ s.data) (hp2 : ∀ s ∈ hs2, '|' ∉ s.data)
    (hlen : hs1.length = hs2.length) (hne : hs1 ≠ hs2) :
    joinPipe hs1 ≠ joinPipe hs2 ∧
    (∀ l1 l2 : List String, l1 = l2 → header_hash l1 = header_hash l2) := by
  refine ⟨fun h => hne (joinPipe_inj hs1 hs2 hp1 hp2 hlen h), ?_⟩
  intro l1 l2 h
  rw [h]

/-- C6 witness: the amended order-sensitivity at a concrete input. -/
theorem c6_witness :
    ((∀ s ∈ (["a", "b"] : List String), '|' ∉ s.data) ∧
     (∀ s ∈ (["b", "a"] : List String), '|' ∉ s.data) ∧
     (["a", "b"] : List String).length = (["b", "a"] : List String).length ∧
     (["a", "b"] : List String) ≠ ["b", "a"]) ∧
    (joinPipe ["a", "b"] ≠ joinPipe ["b", "a"] ∧
     (∀ l1 l2 : List String, l1 = l2 → header_hash l1 = header_hash l2)) :=
  ⟨⟨by decide, by decide, rfl, by decide⟩,
   c6_amended ["a", "b"] ["b", "a"] (by decide) (by decide) rfl (by decide)⟩

/-- C2 counterexample: after renaming, the back-fill step does not insert
only the declared-but-absent schema field ids.  With schema fields
containing just "id" and a rule renaming the sole column "x" to "y", the
header "y" (which is not a declared field) is itself inserted again as an
empty column, because the code takes the symmetric difference of the field
set and the header set. -/
theorem c2_counterexample :
    (generic_convert ["id"] [("x", "y")] ⟨["x"], [["v"]]⟩).headers = ["y", "id", "y"] ∧
    (generic_convert ["id"] [("x", "y")] ⟨["x"], [["v"]]⟩).headers.count "y" = 2 ∧
    ¬ ("y" ∈ (["id"] : List String)) := by
  refine ⟨by decide, by decide, by decide⟩

/-- C2 amended: the back-fill step inserts one new empty-celled front
column per member of the symmetric difference of the declared field ids
and the current headers; when every header is a declared field id (and the
declared ids are distinct) this is exactly the declared-but-absent field
ids, each inserted at the front with the empty string in every cell. -/
theorem c2_amended (fields : List String) (d : Dataset)
    (hnd : fields.Nodup) (hsub : ∀ h ∈ d.headers, h ∈ fields) :
    (post_convert_dataset fields d).headers =
      (fields.filter (fun f => !d.headers.contains f)).reverse ++ d.headers ∧
    (post_convert_dataset fields d).rows =
      d.rows.map (fun r =>
        List.replicate (fields.filter (fun f => !d.headers.contains f)).length "" ++ r) := by
  unfold post_convert_dataset
  rw [empty_fields_of_sub fields d.headers hnd hsub, foldl_insert_col0]
  exact ⟨rfl, rfl⟩

/-- C2 witness: the amended back-fill property at a concrete input. -/
theorem c2_witness :
    ((["id", "name"] : List String).Nodup ∧
     (∀ h ∈ (Dataset.mk ["name"] [["A"]]).headers, h ∈ (["id", "name"] : List String))) ∧
    ((post_convert_dataset ["id", "name"] ⟨["name"], [["A"]]⟩).headers =
       ((["id", "name"] : List String).filter
         (fun f => !(Dataset.mk ["name"] [["A"]]).headers.contains f)).reverse ++
         (Dataset.mk ["name"] [["A"]]).headers ∧
     (post_convert_dataset ["id", "name"] ⟨["name"], [["A"]]⟩).rows =
       (Dataset.mk ["name"] [["A"]]).rows.map (fun r =>
         List.replicate ((["id", "name"] : List String).filter
           (fun f => !(Dataset.mk ["name"] [["A"]]).headers.contains f)).length "" ++ r)) :=
  ⟨⟨by decide, by decide⟩,
   c2_amended ["id", "name"] ⟨["name"], [["A"]]⟩ (by decide) (by decide)⟩

/-- C4 counterexample: applying the rule mapping "Book name" to "name" to a
dataset with headers "Book name", "author_email" under schema fields id,
author_email, name back-fills the missing id column at the FRONT, so the
resulting header sequence is not the claimed
name, author_email, id. -/
theorem c4_counterexample :
    (generic_convert ["id", "author_email", "name"] [("Book name", "name")]
      ⟨["Book name", "author_email"], [["Some book", "test@example.com"]]⟩).headers =
      ["id", "name", "author_email"] ∧
    (generic_convert ["id", "author_email", "name"] [("Book name", "name")]
      ⟨["Book name", "author_email"], [["Some book", "test@example.com"]]⟩).headers ≠
      ["name", "author_email", "id"] := by
  refine ⟨by decide, by decide⟩

/-- C4 amended: the same example produces header sequence id, name,
author_email — the renamed and kept columns in their original order with
the back-filled id column at the front, empty in every row. -/
theorem c4_amended :
    generic_convert ["id", "author_email", "name"] [("Book name", "name")]
      ⟨["Book name", "author_email"], [["Some book", "test@example.com"]]⟩ =
      ⟨["id", "name", "author_email"], [["", "Some book", "test@example.com"]]⟩ := by
  decide

/-- Deleting a column whose header heads the list drops the first header
and every row's first cell position. -/
theorem delCol_head (x : String) (t : List String) (R : List (List String)) :
    delCol ⟨x :: t, R⟩ x = ⟨t, R.map (fun r => r.eraseIdx 0)⟩ := by
  simp [delCol, List.findIdx?_cons]

/-- Deleting a column whose header differs from the first header leaves
the first column in place and recurses positionally. -/
theorem delCol_cons_ne (x h : String) (hne : x ≠ h) (t : List String)
    (R : List (List String)) :
    delCol ⟨h :: t, R⟩ x =
      match t.findIdx? (fun y => y == x) with
      | none => ⟨h :: t, R⟩
      | some i => ⟨h :: t.eraseIdx i, R.map (fun r => r.eraseIdx (i + 1))⟩ := by
  have hb : (h == x) = false := beq_eq_false_iff_ne.2 (fun hh => hne hh.symm)
  simp only [delCol, List.findIdx?_cons, hb, if_false, List.findIdx?_succ]
  cases hidx : t.findIdx? (fun y => y == x) with
  | none => simp
  | some i => simp [List.eraseIdx_cons_succ]

/-- Reassembling non-empty rows from their heads and tails. -/
theorem zipWith_head_tail : ∀ (R : List (List String)), (∀ r ∈ R, r ≠ []) →
    List.zipWith (fun c cs => c :: cs) (R.map (fun r => r.headD ""))
      (R.map List.tail) = R
  | [], _ => rfl
  | r :: R, hne => by
    cases hr : r with
    | nil => exact absurd hr (hne r (by simp))
    | cons a r' =>
      simp only [List.map_cons, List.zipWith_cons_cons, List.headD_cons, List.tail_cons]
      rw [zipWith_head_tail R (fun q hq => hne q (List.mem_cons_of_mem r hq))]

/-- Folding column deletions over targets all distinct from the first
header keeps the first column and acts on the tail positions. -/
theorem foldl_delCol_cons (h : String) :
    ∀ (dels : List String) (t : List String) (R : List (List String)),
      (∀ x ∈ dels, x ≠ h) → (∀ r ∈ R, r ≠ []) →
      dels.foldl delCol ⟨h :: t, R⟩ =
        ⟨h :: (dels.foldl delCol ⟨t, R.map List.tail⟩).headers,
         List.zipWith (fun c cs => c :: cs) (R.map (fun r => r.headD ""))
           (dels.foldl delCol ⟨t, R.map List.tail⟩).rows⟩
  | [], t, R, _, hne => by
    simp only [List.foldl_nil]
    rw [zipWith_head_tail R hne]
  | x :: dels, t, R, hx, hne => by
    rw [List.foldl_cons, List.foldl_cons,
      delCol_cons_ne x h (hx x (by simp)) t R]
    cases hidx : t.findIdx? (fun y => y == x) with
    | none =>
      simp only [delCol, hidx]
      exact foldl_delCol_cons h dels t R
        (fun y hy => hx y (List.mem_cons_of_mem x hy)) hne
    | some i =>
      simp only [delCol, hidx]
      have hne' : ∀ r ∈ R.map (fun r => r.eraseIdx (i + 1)), r ≠ [] := by
        intro r hr
        obtain ⟨r0, hr0, rfl⟩ := List.mem_map.1 hr
        cases hr00 : r0 with
        | nil => exact absurd hr00 (hne r0 hr0)
        | cons a r' => simp [List.eraseIdx_cons_succ]
      have htail : (R.map (fun r => r.eraseIdx (i + 1))).map List.tail =
          (R.map List.tail).map (fun r => r.eraseIdx i) := by
        simp only [List.map_map]
        refine List.map_congr_left (fun r _ => ?_)
        cases r with
        | nil => simp
        | cons a r' => simp [List.eraseIdx_cons_succ]
      have hhead : (R.map (fun r => r.eraseIdx (i + 1))).map (fun r => r.headD "") =
          R.map (fun r => r.headD "") := by
        simp only [List.map_map]
        refine List.map_congr_left (fun r _ => ?_)
        cases r with
        | nil => simp
        | cons a r' => simp [List.eraseIdx_cons_succ]
      rw [foldl_delCol_cons h dels (t.eraseIdx i) (R.map (fun r => r.eraseIdx (i + 1)))
        (fun y hy => hx y (List.mem_cons_of_mem x hy)) hne', htail, hhead]

/-- The delete loop of convert_dataset_by_rule removes exactly the columns
whose headers fail the keep predicate, positionally in every row. -/
theorem foldl_delCol_filter (p : String → Bool) :
    ∀ (hs : List String) (R : List (List String)),
      (∀ r ∈ R, r.length = hs.length) →
      (hs.filter (fun h => !p h)).foldl delCol ⟨hs, R⟩ =
        ⟨hs.filter p,
         R.map (fun r => ((hs.zip r).filter (fun q => p q.1)).map Prod.snd)⟩
  | [], R, halign => by
    simp only [List.filter_nil, List.foldl_nil]
    refine congrArg (Dataset.mk []) ?_
    have hall : ∀ r ∈ R, r = [] := fun r hr => List.length_eq_zero.1 (halign r hr)
    symm
    calc R.map (fun r => ((([] : List String).zip r).filter
            (fun q => p q.1)).map Prod.snd)
        = R.map id := List.map_congr_left (fun r hr => by rw [hall r hr]; rfl)
      _ = R := List.map_id R
  | h :: t, R, halign => by
    by_cases hp : p h
    · have hfilter : (h :: t).filter (fun x => !p x) = t.filter (fun x => !p x) := by
        simp [hp]
      have hnil : ∀ r ∈ R, r ≠ [] := by
        intro r hr hcon
        have := halign r hr
        rw [hcon] at this
        simp at this
      rw [hfilter, foldl_delCol_cons h (t.filter (fun x => !p x)) t R
        (fun x hx => by
          have hpx := List.of_mem_filter hx
          intro hcon
          rw [hcon, hp] at hpx
          simp at hpx) hnil]
      have halign' : ∀ r ∈ R.map List.tail, r.length = t.length := by
        intro r hr
        obtain ⟨r0, hr0, rfl⟩ := List.mem_map.1 hr
        cases hr00 : r0 with
        | nil => exact absurd hr00 (hnil r0 hr0)
        | cons a r' =>
          have := halign r0 hr0
          rw [hr00] at this
          simpa using this
      rw [foldl_delCol_filter p t (R.map List.tail) halign']
      refine congrArg₂ Dataset.mk (by simp [hp]) ?_
      simp only [List.zipWith_map_left, List.zipWith_map_right, List.map_map,
        List.zipWith_same]
      refine List.map_congr_left (fun r hr => ?_)
      cases hr0 : r with
      | nil => exact absurd hr0 (hnil r hr)
      | cons a r' => simp [hp]
    · have hfilter : (h :: t).filter (fun x => !p x) = h :: t.filter (fun x => !p x) := by
        simp [hp]
      have hnil : ∀ r ∈ R, r ≠ [] := by
        intro r hr hcon
        have := halign r hr
        rw [hcon] at this
        simp at this
      rw [hfilter, List.foldl_cons, delCol_head h t R]
      have halign' : ∀ r ∈ R.map (fun r => r.eraseIdx 0), r.length = t.length := by
        intro r hr
        obtain ⟨r0, hr0, rfl⟩ := List.mem_map.1 hr
        cases hr00 : r0 with
        | nil => exact absurd hr00 (hnil r0 hr0)
        | cons a r' =>
          have := halign r0 hr0
          rw [hr00] at this
          simpa using this
      rw [foldl_delCol_filter p t (R.map (fun r => r.eraseIdx 0)) halign']
      refine congrArg₂ Dataset.mk (by simp [hp]) ?_
      rw [List.map_map]
      refine List.map_congr_left (fun r hr => ?_)
      cases hr0 : r with
      | nil => exact absurd hr0 (hnil r hr)
      | cons a r' => simp [hp, Bool.not_eq_true]

/-- A header has no target exactly when it is dropped. -/
theorem targetHeader_none_iff (fields : List String) (rule : List (String × String))
    (h : String) :
    targetHeader fields rule h = none ↔ keepHeader fields rule h = false := by
  unfold targetHeader keepHeader
  cases List.lookup h rule with
  | some v => simp
  | none =>
    by_cases hf : fields.contains h <;> simp [hf]

/-- Rewriting kept headers through the rule is the same as filtering and
mapping all headers at once. -/
theorem filterMap_target_filter (fields : List String) (rule : List (String × String)) :
    ∀ (hs : List String),
      (hs.filter (keepHeader fields rule)).filterMap (targetHeader fields rule) =
        hs.filterMap (targetHeader fields rule)
  | [] => rfl
  | h :: t => by
    by_cases hk : keepHeader fields rule h
    · rw [List.filter_cons_of_pos hk, List.filterMap_cons, List.filterMap_cons,
        filterMap_target_filter fields rule t]
    · have hn : targetHeader fields rule h = none :=
        (targetHeader_none_iff fields rule h).2 (Bool.not_eq_true _ ▸ (by simpa using hk))
      rw [List.filter_cons_of_neg (by simpa using hk), List.filterMap_cons, hn,
        filterMap_target_filter fields rule t]

/-- C3: convert_dataset_by_rule replaces each header that is a rule key by
the rule's target, keeps each remaining header that is a declared field id,
and removes every other column entirely — its header and the positionally
corresponding cell of every row. -/
theorem c3_theorem (fields : List String) (rule : List (String × String)) (d : Dataset)
    (halign : ∀ r ∈ d.rows, r.length = d.headers.length) :
    (convert_dataset_by_rule fields rule d).headers =
      d.headers.filterMap (targetHeader fields rule) ∧
    (convert_dataset_by_rule fields rule d).rows =
      d.rows.map (fun r =>
        ((d.headers.zip r).filter (fun q => keepHeader fields rule q.1)).map Prod.snd) := by
  obtain ⟨hs, R⟩ := d
  simp only [convert_dataset_by_rule]
  rw [foldl_delCol_filter (keepHeader fields rule) hs R halign]
  exact ⟨filterMap_target_filter fields rule hs, rfl⟩

/-- C3 witness: the characterization at a concrete dataset: the rule key
column is renamed, the field column is kept, and the unknown column is
dropped with its cells. -/
theorem c3_witness :
    (∀ r ∈ (Dataset.mk ["Book name", "junk", "id"] [["b", "j", "1"]]).rows,
      r.length = (Dataset.mk ["Book name", "junk", "id"] [["b", "j", "1"]]).headers.length) ∧
    ((convert_dataset_by_rule ["id", "name"] [("Book name", "name")]
        ⟨["Book name", "junk", "id"], [["b", "j", "1"]]⟩).headers =
      (Dataset.mk ["Book name", "junk", "id"] [["b", "j", "1"]]).headers.filterMap
        (targetHeader ["id", "name"] [("Book name", "name")]) ∧
     (convert_dataset_by_rule ["id", "name"] [("Book name", "name")]
        ⟨["Book name", "junk", "id"], [["b", "j", "1"]]⟩).rows =
      (Dataset.mk ["Book name", "junk", "id"] [["b", "j", "1"]]).rows.map (fun r =>
        (((Dataset.mk ["Book name", "junk", "id"] [["b", "j", "1"]]).headers.zip r).filter
          (fun q => keepHeader ["id", "name"] [("Book name", "name")] q.1)).map Prod.snd)) :=
  ⟨by decide,
   c3_theorem ["id", "name"] [("Book name", "name")]
     ⟨["Book name", "junk", "id"], [["b", "j", "1"]]⟩ (by decide)⟩

/-- Updating the record stored under one key leaves lookups at any other
key unchanged. -/
theorem lookup_update_ne (k k' : String) (v : Rec) (hne : k' ≠ k) (st : Storage) :
    List.lookup k' (st.map (fun p => if p.1 == k then (k, v) else p)) =
      List.lookup k' st := by
  induction st with
  | nil => rfl
  | cons p rest ih =>
    obtain ⟨a, b⟩ := p
    simp only [List.map_cons]
    by_cases hak : (a == k) = true
    · have ha : a = k := eq_of_beq hak
      simp only [hak, if_true, List.lookup_cons,
        show (k' == k) = false from beq_eq_false_iff_ne.2 hne,
        show (k' == a) = false from beq_eq_false_iff_ne.2 (ha ▸ hne)]
      exact ih
    · simp only [Bool.not_eq_true] at hak
      simp only [hak, Bool.false_eq_true, if_false, List.lookup_cons]
      cases hka : (k' == a) with
      | true => rfl
      | false => exact ih

/-- Removing the record stored under one key leaves lookups at any other
key unchanged. -/
theorem lookup_filter_ne (k k' : String) (hne : k' ≠ k) (st : Storage) :
    List.lookup k' (st.filter (fun p => p.1 != k)) = List.lookup k' st := by
  induction st with
  | nil => rfl
  | cons p rest ih =>
    obtain ⟨a, b⟩ := p
    by_cases hak : a = k
    · subst hak
      simp only [List.filter_cons, bne_self_eq_false, Bool.false_eq_true, if_false,
        List.lookup_cons, show (k' == a) = false from beq_eq_false_iff_ne.2 hne]
      exact ih
    · simp only [List.filter_cons, show (a != k) = true from by simpa using hak,
        if_true, List.lookup_cons]
      cases hka : (k' == a) <;> simp [ih]

/-- Applying a classified row touches storage only at the row's own record
identity. -/
theorem lookup_applyRow (sch : Schema) (st : Storage) (headers row : List String)
    (rr : RowResult) (k' : String)
    (hne : ∀ k, rr.objectId = some k → k' ≠ k) :
    List.lookup k' (applyRow sch st headers row rr) = List.lookup k' st := by
  unfold applyRow
  cases hoid : rr.objectId with
  | none => cases rr.importType <;> rfl
  | some k =>
    have hk : k' ≠ k := hne k hoid
    cases rr.importType with
    | new =>
      simp only [List.lookup_cons]
      rw [show (k' == k) = false from beq_eq_false_iff_ne.2 hk]
    | update => exact lookup_update_ne k k' (rowValues sch headers row) hk st
    | delete => exact lookup_filter_ne k k' hk st
    | skip => rfl
    | error => rfl

/-- Row classification depends on storage only through the lookup at the
row's own import key. -/
theorem diff_row_congr (sch : Schema) (st1 st2 : Storage) (headers row : List String)
    (h : ∀ k, extractKey sch headers row = some k →
      List.lookup k st1 = List.lookup k st2) :
    diff_row sch st1 headers row = diff_row sch st2 headers row := by
  unfold diff_row
  cases hk : extractKey sch headers row with
  | none => rfl
  | some k =>
    show classifyWith sch (List.lookup k st1) headers row k =
      classifyWith sch (List.lookup k st2) headers row k
    rw [h k hk]

/-- The record identity of a classified row is its extracted import key. -/
theorem diff_row_objectId (sch : Schema) (st : Storage) (headers row : List String)
    (k : String) (hk : extractKey sch headers row = some k) :
    (diff_row sch st headers row).objectId = some k := by
  unfold diff_row
  rw [hk]
  rfl

/-- A commit pass over rows with pairwise-distinct extracted import keys
classifies every row exactly as a pass against the initial storage would,
despite the sequential writes. -/
theorem runRows_commit (sch : Schema) (hs : List String) :
    ∀ (rows : List (List String)) (st0 st : Storage),
      (∀ row ∈ rows, ∀ k, extractKey sch hs row = some k →
        List.lookup k st = List.lookup k st0) →
      (rows.filterMap (fun row => extractKey sch hs row)).Nodup →
      (runRows sch hs false st rows).1 =
        rows.map (fun row => diff_row sch st0 hs row)
  | [], _, _, _, _ => rfl
  | row :: rest, st0, st, hagree, hnd => by
    simp only [runRows, process_row, Bool.false_eq_true, if_false, List.map_cons]
    have h1 : diff_row sch st hs row = diff_row sch st0 hs row :=
      diff_row_congr sch st st0 hs row (hagree row (by simp))
    have hagree' : ∀ row' ∈ rest, ∀ k, extractKey sch hs row' = some k →
        List.lookup k (applyRow sch st hs row (diff_row sch st hs row)) =
          List.lookup k st0 := by
      intro row' hr' k hk'
      rw [lookup_applyRow sch st hs row (diff_row sch st hs row) k ?_]
      · exact hagree row' (List.mem_cons_of_mem row hr') k hk'
      · intro k0 hoid
        cases hkey : extractKey sch hs row with
        | none =>
          rw [diff_row, hkey] at hoid
          exact absurd hoid (by simp)
        | some k1 =>
          have : k0 = k1 := by
            rw [diff_row_objectId sch st hs row k1 hkey] at hoid
            exact (Option.some.inj hoid).symm
          subst this
          rw [List.filterMap_cons, hkey] at hnd
          intro hkk
          subst hkk
          exact (List.nodup_cons.1 hnd).1
            (List.mem_filterMap.2 ⟨row', hr', hk'⟩)
    have hnd' : (rest.filterMap (fun row => extractKey sch hs row)).Nodup := by
      rw [List.filterMap_cons] at hnd
      cases hkey : extractKey sch hs row with
      | none => rw [hkey] at hnd; exact hnd
      | some k1 => rw [hkey] at hnd; exact (List.nodup_cons.1 hnd).2
    rw [runRows_commit sch hs rest st0
      (applyRow sch st hs row (diff_row sch st hs row)) hagree' hnd', h1]

/-- C1 counterexample: dry-run then commit on byte-identical dataset input
with no external storage mutation do NOT always produce identical
import_type sequences.  With two rows sharing the import key "1" against
empty storage, the dry run classifies both rows NEW, but the commit pass —
whose per-row writes are visible to later rows — classifies the second row
SKIP. -/
theorem c1_counterexample :
    import_data (Schema.mk ["id", "name"] "id" none) []
        (Dataset.mk ["id", "name"] [["1", "A"], ["1", "A"]]) true false =
      Except.ok (⟨[⟨ImportType.new, some "1", none⟩,
                   ⟨ImportType.new, some "1", none⟩], [], []⟩, []) ∧
    import_data (Schema.mk ["id", "name"] "id" none) []
        (Dataset.mk ["id", "name"] [["1", "A"], ["1", "A"]]) false true =
      Except.ok (⟨[⟨ImportType.new, some "1", none⟩,
                   ⟨ImportType.skip, some "1", none⟩], [], []⟩,
                 [("1", [("id", "1"), ("name", "A")])]) ∧
    ([ImportType.new, ImportType.new] ≠ [ImportType.new, ImportType.skip]) := by
  refine ⟨by decide, by decide, by decide⟩

/-- C1 amended: when the rows carry pairwise-distinct import keys, a
dry-run pass (which leaves storage untouched) followed by a commit pass on
the codec round-trip of the same dataset — given the codec reproduces the
dataset, as byte-identical input assumes — returns the very same Result,
hence identical import_type and object_id at every row position. -/
theorem c1_amended (sch : Schema) (st : Storage) (d : Dataset)
    (enc : Dataset → List Nat) (dec : List Nat → Dataset)
    (hrt : dec (enc d) = d)
    (hnd : (d.rows.filterMap (fun row => extractKey sch d.headers row)).Nodup)
    (res1 : Result) (st1 : Storage)
    (h1 : import_data sch st d true false = Except.ok (res1, st1))
    (herr : res1.has_errors = false) :
    st1 = st ∧
    import_data sch st (dec (enc d)) false true =
      Except.ok (res1, (runRows sch d.headers false st d.rows).2) := by
  rw [import_data_no_raise] at h1
  have h1' : import_data_run sch st d true = (res1, st1) := Except.ok.inj h1
  have hdry : import_data_run sch st d true =
      (⟨d.rows.map (fun row => diff_row sch st d.headers row), [], []⟩, st) := by
    unfold import_data_run
    rw [runRows_dry sch d.headers d.rows st]
  have hpair := h1'.symm.trans hdry
  have hres1 : res1 = ⟨d.rows.map (fun row => diff_row sch st d.headers row), [], []⟩ :=
    congrArg Prod.fst hpair
  have hst1 : st1 = st := congrArg Prod.snd hpair
  refine ⟨hst1, ?_⟩
  rw [hrt]
  have hcommit : import_data_run sch st d false =
      (res1, (runRows sch d.headers false st d.rows).2) := by
    simp only [import_data_run]
    rw [runRows_commit sch d.headers d.rows st st (fun _ _ _ _ => rfl) hnd, ← hres1]
  simp only [import_data]
  rw [hcommit]
  simp [herr]

/-- C1 witness: the amended two-phase determinism at a concrete schema,
dataset and codec. -/
theorem c1_witness :
    (((fun _ : List Nat => Dataset.mk ["id", "name"] [["1", "A"], ["2", "B"]])
        ((fun _ : Dataset => ([] : List Nat))
          (Dataset.mk ["id", "name"] [["1", "A"], ["2", "B"]])) =
      Dataset.mk ["id", "name"] [["1", "A"], ["2", "B"]]) ∧
     ((Dataset.mk ["id", "name"] [["1", "A"], ["2", "B"]]).rows.filterMap
        (fun row => extractKey (Schema.mk ["id", "name"] "id" none)
          (Dataset.mk ["id", "name"] [["1", "A"], ["2", "B"]]).headers row)).Nodup ∧
     (import_data (Schema.mk ["id", "name"] "id" none) []
        (Dataset.mk ["id", "name"] [["1", "A"], ["2", "B"]]) true false =
      Except.ok (⟨[⟨ImportType.new, some "1", none⟩,
                   ⟨ImportType.new, some "2", none⟩], [], []⟩, [])) ∧
     (Result.has_errors ⟨[⟨ImportType.new, some "1", none⟩,
                          ⟨ImportType.new, some "2", none⟩], [], []⟩ = false)) ∧
    (([] : Storage) = [] ∧
     import_data (Schema.mk ["id", "name"] "id" none) []
        ((fun _ : List Nat => Dataset.mk ["id", "name"] [["1", "A"], ["2", "B"]])
          ((fun _ : Dataset => ([] : List Nat))
            (Dataset.mk ["id", "name"] [["1", "A"], ["2", "B"]]))) false true =
      Except.ok (⟨[⟨ImportType.new, some "1", none⟩,
                   ⟨ImportType.new, some "2", none⟩], [], []⟩,
        (runRows (Schema.mk ["id", "name"] "id" none)
          (Dataset.mk ["id", "name"] [["1", "A"], ["2", "B"]]).headers false []
          (Dataset.mk ["id", "name"] [["1", "A"], ["2", "B"]]).rows).2)) :=
  ⟨⟨rfl, by decide, by decide, by decide⟩,
   c1_amended (Schema.mk ["id", "name"] "id" none) []
     (Dataset.mk ["id", "name"] [["1", "A"], ["2", "B"]])
     (fun _ => []) (fun _ => Dataset.mk ["id", "name"] [["1", "A"], ["2", "B"]])
     rfl (by decide)
     ⟨[⟨ImportType.new, some "1", none⟩, ⟨ImportType.new, some "2", none⟩], [], []⟩
     [] (by decide) (by decide)⟩

/-- Reading back the handle a save returned yields the saved bytes. -/
theorem blobRead_save (b : Blobs) (x : List Nat) :
    blobRead (blobSave b x).2 (blobSave b x).1 = some x := by
  simp [blobRead, blobSave, List.lookup_cons]

/-- A removed handle is no longer readable. -/
theorem blobRead_remove (b : Blobs) (h : String) :
    blobRead (blobRemove b h) h = none := by
  simp only [blobRead, blobRemove]
  induction b.entries with
  | nil => rfl
  | cons e rest ih =>
    obtain ⟨a, v⟩ := e
    by_cases hah : a = h
    · subst hah
      simpa using ih
    · simp only [List.filter_cons, show (a != h) = true from by simpa using hah,
        if_true, List.lookup_cons,
        show (h == a) = false from beq_eq_false_iff_ne.2 (fun hc => hah hc.symm)]
      exact ih

/-- The preview handler leaves record storage exactly as it found it. -/
theorem import_action_storage (sch : Schema) (dec : List Nat → Dataset)
    (st : Storage) (b : Blobs) (upload : List Nat) (uploadName : String) (fmt : Nat) :
    (import_action sch dec st b upload uploadName fmt).storage = st := by
  simp only [import_action, import_data_no_raise, import_data_run]
  rw [runRows_dry]

/-- The generic preview handler leaves record storage exactly as it found
it. -/
theorem generic_import_action_storage (sch : Schema) (fields : List String)
    (dec : List Nat → Dataset) (enc : Dataset → List Nat)
    (st : Storage) (b : Blobs) (form : PreForm) (rule : List (String × String)) :
    (generic_import_action sch fields dec enc st b form rule).storage = st := by
  simp only [generic_import_action]
  cases blobRead b form.import_file_name with
  | none => rfl
  | some data =>
    simp only [import_data_no_raise, import_data_run]
    rw [runRows_dry]
    by_cases hh : (Result.has_errors
        ⟨(dec data |> generic_convert fields rule).rows.map
          (fun row => diff_row sch st (generic_convert fields rule (dec data)).headers row),
          [], []⟩) <;> simp [hh]

/-- The preview result reports one RowResult per decoded dataset row,
classified against the untouched storage. -/
theorem import_action_result (sch : Schema) (dec : List Nat → Dataset)
    (st : Storage) (b : Blobs) (upload : List Nat) (uploadName : String) (fmt : Nat) :
    (import_action sch dec st b upload uploadName fmt).result =
      ⟨(dec upload).rows.map
        (fun row => diff_row sch st (dec upload).headers row), [], []⟩ := by
  simp only [import_action, blobRead_save, Option.getD_some,
    import_data_no_raise, import_data_run]
  rw [runRows_dry]

/-- The preview handler offers a confirm form exactly when the dry run is
clean, and then the form carries the fresh save handle, the original
filename, and the format index. -/
theorem import_action_confirm (sch : Schema) (dec : List Nat → Dataset)
    (st : Storage) (b : Blobs) (upload : List Nat) (uploadName : String) (fmt : Nat) :
    (import_action sch dec st b upload uploadName fmt).confirmForm =
      (if (import_action sch dec st b upload uploadName fmt).result.has_errors
       then none else some ⟨freshName b, uploadName, fmt⟩) ∧
    (import_action sch dec st b upload uploadName fmt).blobs = (blobSave b upload).2 := by
  rw [import_action_result]
  simp only [import_action, blobRead_save, Option.getD_some,
    import_data_no_raise, import_data_run]
  rw [runRows_dry]
  exact ⟨rfl, trivial⟩

/-- A commit-mode import_data that returns at all returned a clean result. -/
theorem import_data_ok_no_errors (sch : Schema) (st : Storage) (d : Dataset)
    (res : Result) (st' : Storage)
    (h : import_data sch st d false true = Except.ok (res, st')) :
    res.has_errors = false := by
  simp only [import_data] at h
  by_cases hh : (import_data_run sch st d false).1.has_errors
  · rw [if_pos (by simp [hh])] at h
    exact absurd h (by simp)
  · rw [if_neg (by simp [hh])] at h
    have h2 : (import_data_run sch st d false).1 = res :=
      congrArg Prod.fst (Except.ok.inj h)
    rw [← h2]
    simpa using hh

/-- A clean result never reaches the undefined branch of logentry_map:
every action flag computed for a non-SKIP row is present. -/
theorem logsOf_all_some (res : Result) (h : res.has_errors = false) :
    (logsOf res).all Option.isSome = true := by
  have hno : ∀ r ∈ res.rows, r.importType ≠ ImportType.error := by
    intro r hr hcon
    unfold Result.has_errors at h
    simp only [Bool.or_eq_false_iff] at h
    have h2 := h.2
    rw [List.any_eq_false] at h2
    have := h2 r hr
    rw [hcon] at this
    simp at this
  unfold logsOf
  rw [List.all_eq_true]
  intro o ho
  obtain ⟨r, hr, rfl⟩ := List.mem_map.1 ho
  have hski := List.of_mem_filter hr
  have hmem := List.mem_of_mem_filter hr
  cases hty : r.importType with
  | new => simp [logentry_map, hty]
  | update => simp [logentry_map, hty]
  | delete => simp [logentry_map, hty]
  | skip =>
    rw [hty] at hski
    simp at hski
  | error => exact absurd hty (hno r hmem)

/-- C7: process_import invokes import_data with dry_run=False and
raise_errors=True while the preview handlers invoke it with dry_run=True
and raise_errors=False, so a preview pass (plain or generic) never writes
to record storage, always renders a result covering every row, and a
commit whose result carries errors is surfaced to the caller as failed. -/
theorem c7_theorem (sch : Schema) (fields : List String)
    (dec : List Nat → Dataset) (enc : Dataset → List Nat)
    (st : Storage) (b : Blobs) (upload : List Nat) (uploadName : String) (fmt : Nat)
    (st3 : Storage) (b3 : Blobs) (form : PreForm) (rule : List (String × String))
    (st2 : Storage) (b2 : Blobs) (form2 : ConfirmForm) (data : List Nat)
    (hread : blobRead b2 form2.import_file_name = some data)
    (herr : (import_data_run sch st2 (dec data) false).1.has_errors = true) :
    (import_action sch dec st b upload uploadName fmt).storage = st ∧
    (generic_import_action sch fields dec enc st3 b3 form rule).storage = st3 ∧
    (import_action sch dec st b upload uploadName fmt).result.rows.length =
      (dec upload).rows.length ∧
    process_import sch dec st2 b2 form2 =
      CommitOutcome.failed "import errors" b2 st2 := by
  refine ⟨import_action_storage sch dec st b upload uploadName fmt,
    generic_import_action_storage sch fields dec enc st3 b3 form rule, ?_, ?_⟩
  · rw [import_action_result]
    simp
  · have hfail : import_data sch st2 (dec data) false true =
        Except.error "import errors" := by
      simp only [import_data]
      rw [if_pos (by simp [herr])]
    simp only [process_import, hread, hfail]

/-- C8: the confirm form offered by the preview carries exactly the fresh
blob handle under which the uploaded bytes were saved, together with the
original filename and format index; the commit pass reads those same bytes
from that handle, so nothing is re-transferred, and after a successful
commit the handle is gone from the blob store. -/
theorem c8_theorem (sch : Schema) (dec : List Nat → Dataset) (st st2 : Storage)
    (b : Blobs) (upload : List Nat) (uploadName : String) (fmt : Nat)
    (f : ConfirmForm) (res : Result) (st' : Storage)
    (hf : (import_action sch dec st b upload uploadName fmt).confirmForm = some f)
    (hok : import_data sch st2 (dec upload) false true = Except.ok (res, st')) :
    blobRead (import_action sch dec st b upload uploadName fmt).blobs
      f.import_file_name = some upload ∧
    f.original_file_name = uploadName ∧
    f.input_format = fmt ∧
    process_import sch dec st2
        (import_action sch dec st b upload uploadName fmt).blobs f =
      CommitOutcome.success res (logsOf res)
        (blobRemove (import_action sch dec st b upload uploadName fmt).blobs
          f.import_file_name) st' ∧
    blobRead (blobRemove (import_action sch dec st b upload uploadName fmt).blobs
      f.import_file_name) f.import_file_name = none := by
  obtain ⟨hcf, hblobs⟩ := import_action_confirm sch dec st b upload uploadName fmt
  rw [hcf] at hf
  by_cases hh : (import_action sch dec st b upload uploadName fmt).result.has_errors = true
  · rw [if_pos hh] at hf
    exact absurd hf (by simp)
  · rw [if_neg hh] at hf
    have hf' : f = ⟨freshName b, uploadName, fmt⟩ := (Option.some.inj hf).symm
    subst hf'
    rw [hblobs]
    have hread : blobRead (blobSave b upload).2 (freshName b) = some upload :=
      blobRead_save b upload
    refine ⟨hread, rfl, rfl, ?_, blobRead_remove (blobSave b upload).2 (freshName b)⟩
    simp only [process_import, hread, hok]

/-- C9: both preview handlers offer the ConfirmImportForm — the only route
into the commit phase — exactly when the dry-run result has no errors:
for the plain handler the form's presence equals the negation of
has_errors, and for the generic handler the same holds whenever a result
was rendered at all. -/
theorem c9_theorem (sch : Schema) (fields : List String)
    (dec : List Nat → Dataset) (enc : Dataset → List Nat)
    (st : Storage) (b : Blobs) (upload : List Nat) (uploadName : String) (fmt : Nat)
    (st3 : Storage) (b3 : Blobs) (form : PreForm) (rule : List (String × String))
    (res : Result)
    (hres : (generic_import_action sch fields dec enc st3 b3 form rule).result =
      some res) :
    ((import_action sch dec st b upload uploadName fmt).confirmForm.isSome =
      !(import_action sch dec st b upload uploadName fmt).result.has_errors) ∧
    ((generic_import_action sch fields dec enc st3 b3 form rule).confirmForm.isSome =
      !res.has_errors) := by
  constructor
  · obtain ⟨hcf, _⟩ := import_action_confirm sch dec st b upload uploadName fmt
    rw [hcf]
    by_cases hh : (import_action sch dec st b upload uploadName fmt).result.has_errors = true
    · rw [if_pos hh, hh]
      rfl
    · rw [if_neg hh]
      simp only [Bool.not_eq_true] at hh
      rw [hh]
      rfl
  · revert hres
    simp only [generic_import_action]
    cases hrd : blobRead b3 form.import_file_name with
    | none =>
      intro hres
      exact absurd hres (by simp)
    | some data =>
      simp only [import_data_no_raise]
      by_cases hh : (import_data_run sch st3
          (generic_convert fields rule (dec data)) true).1.has_errors = true
      · simp only [hh, if_true]
        intro hres
        have hres' : res =
            (import_data_run sch st3 (generic_convert fields rule (dec data)) true).1 :=
          (Option.some.inj hres).symm
        rw [hres', hh]
        rfl
      · simp only [Bool.not_eq_true] at hh
        simp only [hh, Bool.false_eq_true, if_false]
        intro hres
        have hres' : res =
            (import_data_run sch st3 (generic_convert fields rule (dec data)) true).1 :=
          (Option.some.inj hres).symm
        rw [hres', hh]
        rfl

/-- C10: whenever process_import reaches its admin-logging loop (a success
outcome), every action-flag lookup it performed is defined: SKIP rows were
filtered out just before the lookup and, import_data having been run with
raise_errors=True, an erroring result never reached the loop, so each
logged row's import type lies in the NEW/UPDATE/DELETE domain of
logentry_map. -/
theorem c10_theorem (sch : Schema) (dec : List Nat → Dataset) (st : Storage)
    (b : Blobs) (form : ConfirmForm) (res : Result) (logs : List (Option Nat))
    (b' : Blobs) (st' : Storage)
    (h : process_import sch dec st b form = CommitOutcome.success res logs b' st') :
    logs.all Option.isSome = true := by
  simp only [process_import] at h
  cases hread : blobRead b form.import_file_name with
  | none =>
    simp only [hread] at h
    exact absurd h (by simp)
  | some data =>
    simp only [hread] at h
    cases hid : import_data sch st (dec data) false true with
    | error e =>
      simp only [hid] at h
      exact absurd h (by simp)
    | ok rs =>
      simp only [hid] at h
      have hlogs : logs = logsOf rs.1 := by
        injection h with h1 h2 h3 h4
        exact h2.symm
      have herrs : rs.1.has_errors = false :=
        import_data_ok_no_errors sch st (dec data) rs.1 rs.2 hid
      rw [hlogs]
      exact logsOf_all_some rs.1 herrs

/-- C7 witness: the mode/flag contract at a concrete schema, codec and
blob store, including a commit pass surfaced as failed. -/
theorem c7_witness :
    (blobRead (Blobs.mk [("tmp0", [42])] 1)
        (ConfirmForm.mk "tmp0" "books.csv" 0).import_file_name = some [42] ∧
     (import_data_run (Schema.mk ["id"] "id" none) []
        ((fun _ : List Nat => Dataset.mk ["name"] [["A"]]) [42]) false).1.has_errors
          = true) ∧
    ((import_action (Schema.mk ["id"] "id" none)
        (fun _ : List Nat => Dataset.mk ["name"] [["A"]]) [] (Blobs.mk [] 0)
        [42] "books.csv" 0).storage = [] ∧
     (generic_import_action (Schema.mk ["id"] "id" none) ["id"]
        (fun _ : List Nat => Dataset.mk ["name"] [["A"]])
        (fun _ : Dataset => ([] : List Nat)) [] (Blobs.mk [] 0)
        (PreForm.mk "tmp0" "books.csv" 0) []).storage = [] ∧
     (import_action (Schema.mk ["id"] "id" none)
        (fun _ : List Nat => Dataset.mk ["name"] [["A"]]) [] (Blobs.mk [] 0)
        [42] "books.csv" 0).result.rows.length =
       ((fun _ : List Nat => Dataset.mk ["name"] [["A"]]) [42]).rows.length ∧
     process_import (Schema.mk ["id"] "id" none)
        (fun _ : List Nat => Dataset.mk ["name"] [["A"]]) []
        (Blobs.mk [("tmp0", [42])] 1) (ConfirmForm.mk "tmp0" "books.csv" 0) =
       CommitOutcome.failed "import errors" (Blobs.mk [("tmp0", [42])] 1) []) :=
  ⟨⟨by decide, by decide⟩,
   c7_theorem (Schema.mk ["id"] "id" none) ["id"]
     (fun _ : List Nat => Dataset.mk ["name"] [["A"]])
     (fun _ : Dataset => ([] : List Nat))
     [] (Blobs.mk [] 0) [42] "books.csv" 0
     [] (Blobs.mk [] 0) (PreForm.mk "tmp0" "books.csv" 0) []
     [] (Blobs.mk [("tmp0", [42])] 1) (ConfirmForm.mk "tmp0" "books.csv" 0) [42]
     (by decide) (by decide)⟩

/-- C8 witness: the handle round-trip at a concrete upload: the confirm
form carries the saved handle, the commit reads the same bytes and the
handle is removed afterwards. -/
theorem c8_witness :
    ((import_action (Schema.mk ["id"] "id" none)
        (fun _ : List Nat => Dataset.mk ["id"] [["1"]]) [] (Blobs.mk [] 0)
        [42] "books.csv" 0).confirmForm = some (ConfirmForm.mk "tmp0" "books.csv" 0) ∧
     import_data (Schema.mk ["id"] "id" none) []
        ((fun _ : List Nat => Dataset.mk ["id"] [["1"]]) [42]) false true =
       Except.ok (⟨[⟨ImportType.new, some "1", none⟩], [], []⟩,
         [("1", [("id", "1")])])) ∧
    (blobRead (import_action (Schema.mk ["id"] "id" none)
        (fun _ : List Nat => Dataset.mk ["id"] [["1"]]) [] (Blobs.mk [] 0)
        [42] "books.csv" 0).blobs
        (ConfirmForm.mk "tmp0" "books.csv" 0).import_file_name = some [42] ∧
     (ConfirmForm.mk "tmp0" "books.csv" 0).original_file_name = "books.csv" ∧
     (ConfirmForm.mk "tmp0" "books.csv" 0).input_format = 0 ∧
     process_import (Schema.mk ["id"] "id" none)
        (fun _ : List Nat => Dataset.mk ["id"] [["1"]]) []
        (import_action (Schema.mk ["id"] "id" none)
          (fun _ : List Nat => Dataset.mk ["id"] [["1"]]) [] (Blobs.mk [] 0)
          [42] "books.csv" 0).blobs (ConfirmForm.mk "tmp0" "books.csv" 0) =
       CommitOutcome.success ⟨[⟨ImportType.new, some "1", none⟩], [], []⟩
         (logsOf ⟨[⟨ImportType.new, some "1", none⟩], [], []⟩)
         (blobRemove (import_action (Schema.mk ["id"] "id" none)
            (fun _ : List Nat => Dataset.mk ["id"] [["1"]]) [] (Blobs.mk [] 0)
            [42] "books.csv" 0).blobs
           (ConfirmForm.mk "tmp0" "books.csv" 0).import_file_name)
         [("1", [("id", "1")])] ∧
     blobRead (blobRemove (import_action (Schema.mk ["id"] "id" none)
          (fun _ : List Nat => Dataset.mk ["id"] [["1"]]) [] (Blobs.mk [] 0)
          [42] "books.csv" 0).blobs
        (ConfirmForm.mk "tmp0" "books.csv" 0).import_file_name)
       (ConfirmForm.mk "tmp0" "books.csv" 0).import_file_name = none) :=
  ⟨⟨by decide, by decide⟩,
   c8_theorem (Schema.mk ["id"] "id" none)
     (fun _ : List Nat => Dataset.mk ["id"] [["1"]]) [] []
     (Blobs.mk [] 0) [42] "books.csv" 0
     (ConfirmForm.mk "tmp0" "books.csv" 0)
     ⟨[⟨ImportType.new, some "1", none⟩], [], []⟩ [("1", [("id", "1")])]
     (by decide) (by decide)⟩

/-- C9 witness: the confirm-form-iff-no-errors equivalence at concrete
inputs for both the plain and the generic preview handler. -/
theorem c9_witness :
    ((generic_import_action (Schema.mk ["id"] "id" none) ["id"]
        (fun _ : List Nat => Dataset.mk ["id"] [["1"]])
        (fun _ : Dataset => ([] : List Nat)) [] (Blobs.mk [("tmp0", [42])] 1)
        (PreForm.mk "tmp0" "books.csv" 0) []).result =
      some ⟨[⟨ImportType.new, some "1", none⟩], [], []⟩) ∧
    (((import_action (Schema.mk ["id"] "id" none)
        (fun _ : List Nat => Dataset.mk ["id"] [["1"]]) [] (Blobs.mk [] 0)
        [42] "books.csv" 0).confirmForm.isSome =
      !(import_action (Schema.mk ["id"] "id" none)
        (fun _ : List Nat => Dataset.mk ["id"] [["1"]]) [] (Blobs.mk [] 0)
        [42] "books.csv" 0).result.has_errors) ∧
     ((generic_import_action (Schema.mk ["id"] "id" none) ["id"]
        (fun _ : List Nat => Dataset.mk ["id"] [["1"]])
        (fun _ : Dataset => ([] : List Nat)) [] (Blobs.mk [("tmp0", [42])] 1)
        (PreForm.mk "tmp0" "books.csv" 0) []).confirmForm.isSome =
      !(Result.mk [⟨ImportType.new, some "1", none⟩] [] []).has_errors)) :=
  ⟨by decide,
   c9_theorem (Schema.mk ["id"] "id" none) ["id"]
     (fun _ : List Nat => Dataset.mk ["id"] [["1"]])
     (fun _ : Dataset => ([] : List Nat))
     [] (Blobs.mk [] 0) [42] "books.csv" 0
     [] (Blobs.mk [("tmp0", [42])] 1) (PreForm.mk "tmp0" "books.csv" 0) []
     ⟨[⟨ImportType.new, some "1", none⟩], [], []⟩ (by decide)⟩

/-- C10 witness: a concrete successful commit whose every admin-log
action-flag lookup is defined. -/
theorem c10_witness :
    (process_import (Schema.mk ["id", "name"] "id" none)
        (fun _ : List Nat => Dataset.mk ["id", "name"] [["1", "A"], ["2", "B"]]) []
        (Blobs.mk [("tmp0", [42])] 1) (ConfirmForm.mk "tmp0" "books.csv" 0) =
      CommitOutcome.success
        ⟨[⟨ImportType.new, some "1", none⟩, ⟨ImportType.new, some "2", none⟩], [], []⟩
        [some 1, some 1] (Blobs.mk [] 1)
        [("2", [("id", "2"), ("name", "B")]), ("1", [("id", "1"), ("name", "A")])]) ∧
    ([some 1, some 1] : List (Option Nat)).all Option.isSome = true :=
  ⟨by decide,
   c10_theorem (Schema.mk ["id", "name"] "id" none)
     (fun _ : List Nat => Dataset.mk ["id", "name"] [["1", "A"], ["2", "B"]]) []
     (Blobs.mk [("tmp0", [42])] 1) (ConfirmForm.mk "tmp0" "books.csv" 0)
     ⟨[⟨ImportType.new, some "1", none⟩, ⟨ImportType.new, some "2", none⟩], [], []⟩
     [some 1, some 1] (Blobs.mk [] 1)
     [("2", [("id", "2"), ("name", "B")]), ("1", [("id", "1"), ("name", "A")])]
     (by decide)⟩

end ImportExport
